import Mathlib

set_option maxRecDepth 40000

/-!
Verification development for the SockDesignAdvanced image-quantization
pipeline (`src/app/components/PictureDesigner.tsx`, which contains a simple
and an advanced component variant, plus `src/app/components/SockDesigner.tsx`).

Embedding conventions:
* An `ImageData` buffer (flat RGBA `Uint8ClampedArray` of length `4*w*h`) is
  modelled as a `List Color` of RGBA quadruples; flat byte index `4*q + ch`
  corresponds to channel `ch` of list entry `q`.  Every pixel write in the
  source is quadruple-aligned, so the two views agree, including the aliasing
  behaviour of raw flat indices.
* JavaScript numbers that stay integral are modelled by `ℕ`/`ℤ`.  The
  fractional values of the source (ratios, means, the Floyd-Steinberg error
  fractions `n/16`) are all quotients by positive integers and are modelled
  exactly, as a numerator together with its positive denominator; `Int./` is
  Euclidean division, which is floor division for positive divisors.
* `Math.round q` is `⌊q + 1/2⌋`; for `q = n/d` with `d > 0` this is
  `(2*n + d) / (2*d)` (`jsRoundDiv`).
* Storing a fractional value into a `Uint8ClampedArray` rounds half to even
  (the ToUint8Clamp algorithm); `roundHalfEvenDiv` implements this for `n/d`.
* Writing through an out-of-range index of a typed array is silently ignored
  in JavaScript; `List.set` is the identity out of range, and an explicit
  sign test covers negative indices (`setPixelZ`).
* `colorDistance` (plain RGB metric) takes a square root that is only ever
  used in comparisons; `Math.sqrt` is strictly monotone, so the metric is
  modelled by its square (`colorDistSqZ`, an exact integer).
  `perceptualColorDistance` (CIELAB, built from `Math.pow x 2.4` and cube
  roots) is transcendental; every claim about the passes that use it is
  independent of the metric, so those passes are parametrised by an abstract
  distance `d` into an arbitrary linear order, and concrete counterexamples
  instantiate `d := colorDistSqZ`.
* `Math.floor (Math.random () * pixels.length)` produces an arbitrary index
  below `pixels.length`; the stream of such draws is modelled by a function
  `pick : ℕ → ℕ` (call number to index), constrained to be in range where a
  theorem needs it.
-/

structure Color where
  r : ℕ
  g : ℕ
  b : ℕ
  a : ℕ
deriving DecidableEq

instance : Inhabited Color := ⟨⟨0, 0, 0, 0⟩⟩

structure Bitmap where
  width : ℕ
  height : ℕ
  data : List Color
deriving DecidableEq

/-- Math.round of `n/d` for `d > 0`: `⌊n/d + 1/2⌋ = (2n + d) / (2d)`. -/
def jsRoundDiv (n d : ℤ) : ℤ := (2 * n + d) / (2 * d)

/-- ToUint8Clamp rounding of `n/d` (`d > 0`) for a value already clamped to
the representable range: round to nearest, ties to even. -/
def roundHalfEvenDiv (n d : ℤ) : ℤ :=
  let f := n / d
  let r := n % d
  if 2 * r < d then f
  else if d < 2 * r then f + 1
  else if f % 2 = 0 then f else f + 1

/-- Ceiling division on naturals (`⌈a/b⌉` for `b > 0`). -/
def ceilDiv (a b : ℕ) : ℕ := (a + b - 1) / b

/-- colorDistance (PictureDesigner.tsx 26-32, SockDesigner.tsx 68-74) squared:
the source takes `Math.sqrt` of this sum but only ever compares distances, and
squaring is strictly monotone on nonnegative reals. -/
def colorDistSqZ (c1 c2 : Color) : ℤ :=
  ((c1.r : ℤ) - c2.r) ^ 2 + ((c1.g : ℤ) - c2.g) ^ 2 + ((c1.b : ℤ) - c2.b) ^ 2

/-- Write a quadruple at a signed pixel index.  JavaScript ignores writes
through an out-of-range typed-array index. -/
def setPixelZ (data : List Color) (idx : ℤ) (c : Color) : List Color :=
  if 0 ≤ idx then data.set idx.toNat c else data

/-- handleCanvasClick (simple variant, PictureDesigner.tsx 205-240): no bounds
check; the selected color is written with alpha 255 at flat index
`(y * width + x) * 4`, whatever `x` and `y` are. -/
def handleCanvasClickAt (bmp : Bitmap) (x y : ℤ) (c : Color) : Bitmap :=
  { bmp with data := setPixelZ bmp.data (y * bmp.width + x) ⟨c.r, c.g, c.b, 255⟩ }

/-- paintPixel (advanced variant, PictureDesigner.tsx 1060-1098): same write,
but guarded by `x < 0 || x >= width || y < 0 || y >= height`. -/
def paintPixel (bmp : Bitmap) (x y : ℤ) (c : Color) : Bitmap :=
  if x < 0 ∨ (bmp.width : ℤ) ≤ x ∨ y < 0 ∨ (bmp.height : ℤ) ≤ y then bmp
  else { bmp with data := setPixelZ bmp.data (y * bmp.width + x) ⟨c.r, c.g, c.b, 255⟩ }

/-- Accumulator of areaAverageDownsample: alpha-weighted RGB sums and the
alpha sum.  The source keeps `a` and `count` separately but both are
incremented by `alpha` from 0, so they are always equal. -/
structure DownAcc where
  r : ℕ
  g : ℕ
  b : ℕ
  a : ℕ

/-- One target cell of areaAverageDownsample (PictureDesigner.tsx 602-646).
`sx1 = Math.floor (x * sw / tw)`, `sx2 = Math.ceil ((x+1) * sw / tw)`; the
source rectangle is clipped at the source dimensions; pixels with alpha 0
contribute nothing; with a positive alpha sum the output channels are the
rounded weighted means and the output alpha is the mean alpha over the
unclipped rectangle (the source divides by `sx2-sx1` and then by `sy2-sy1`);
otherwise the zero-initialised ImageData quadruple (0,0,0,0) is left. -/
def downsampleCell (src : List Color) (sw sh tw th : ℕ) (x y : ℕ) : Color :=
  let sx1 := x * sw / tw
  let sx2 := ceilDiv ((x + 1) * sw) tw
  let sy1 := y * sh / th
  let sy2 := ceilDiv ((y + 1) * sh) th
  let xs := List.range' sx1 (min sx2 sw - sx1)
  let ys := List.range' sy1 (min sy2 sh - sy1)
  let acc := ys.foldl (fun acy sy => xs.foldl (fun ac sx =>
      let c := src.getD (sy * sw + sx) default
      if 0 < c.a then
        ⟨ac.r + c.r * c.a, ac.g + c.g * c.a, ac.b + c.b * c.a, ac.a + c.a⟩
      else ac) acy) (⟨0, 0, 0, 0⟩ : DownAcc)
  if 0 < acc.a then
    ⟨(jsRoundDiv acc.r acc.a).toNat, (jsRoundDiv acc.g acc.a).toNat,
     (jsRoundDiv acc.b acc.a).toNat,
     (jsRoundDiv acc.a ((sx2 - sx1) * (sy2 - sy1))).toNat⟩
  else ⟨0, 0, 0, 0⟩

/-- areaAverageDownsample (PictureDesigner.tsx 602-646); the target buffer is
filled cell by cell in row-major order. -/
def areaAverageDownsample (src : Bitmap) (tw th : ℕ) : Bitmap :=
  ⟨tw, th, (List.range (tw * th)).map (fun i =>
     downsampleCell src.data src.width src.height tw th (i % tw) (i / tw))⟩

/-- The fixed sharpening kernel of enhanceEdgesFilter (PictureDesigner.tsx
657-661), row-major. -/
def sharpenKernel : List ℤ := [0, -1, 0, -1, 5, -1, 0, -1, 0]

/-- One RGB channel of the 3x3 convolution at interior pixel (x, y). -/
def convChannel (data : List Color) (w : ℕ) (x y : ℕ) (ch : Color → ℕ) : ℤ :=
  (List.range 3).foldl (fun s ky => (List.range 3).foldl (fun t kx =>
    t + sharpenKernel.getD (ky * 3 + kx) 0 *
        (ch (data.getD ((y + ky - 1) * w + (x + kx - 1)) default) : ℤ)) s) 0

/-- enhanceEdgesFilter (PictureDesigner.tsx 649-693).  The output ImageData
starts zero-filled; every interior pixel receives the clamped convolution on
RGB together with the source alpha; the final pass walks the flat buffer and
backfills, on every channel except alpha (`i % 4 !== 3`), bytes that are
still zero from the source. -/
def enhanceEdgesFilter (bmp : Bitmap) : Bitmap :=
  let w := bmp.width
  let h := bmp.height
  let interior := (List.range (w * h)).map (fun i =>
    let x := i % w
    let y := i / w
    if 1 ≤ x ∧ x + 1 < w ∧ 1 ≤ y ∧ y + 1 < h then
      (⟨(max 0 (min 255 (convChannel bmp.data w x y Color.r))).toNat,
        (max 0 (min 255 (convChannel bmp.data w x y Color.g))).toNat,
        (max 0 (min 255 (convChannel bmp.data w x y Color.b))).toNat,
        (bmp.data.getD i default).a⟩ : Color)
    else ⟨0, 0, 0, 0⟩)
  ⟨w, h, (List.range (w * h)).map (fun i =>
     let q := interior.getD i default
     let s := bmp.data.getD i default
     (⟨if q.r = 0 then s.r else q.r, if q.g = 0 then s.g else q.g,
       if q.b = 0 then s.b else q.b, q.a⟩ : Color))⟩

/-- An exact fraction with (by construction) positive denominator: the
centroid channels of the simple-variant k-means are means of pixel values
and stay fractional between iterations. -/
structure Frac where
  num : ℤ
  den : ℤ
deriving DecidableEq

/-- Difference integer minus fraction. -/
def fsub (n : ℤ) (f : Frac) : Frac := ⟨n * f.den - f.num, f.den⟩

/-- Square of a fraction. -/
def fsq (f : Frac) : Frac := ⟨f.num ^ 2, f.den ^ 2⟩

/-- Sum of two fractions (no normalisation needed for comparisons). -/
def fadd (a b : Frac) : Frac := ⟨a.num * b.den + b.num * a.den, a.den * b.den⟩

/-- Strict comparison of fractions with positive denominators. -/
def flt (a b : Frac) : Bool := a.num * b.den < b.num * a.den

/-- A k-means centroid: one fraction per RGB channel. -/
structure CentF where
  r : Frac
  g : Frac
  b : Frac
deriving DecidableEq

/-- Squared colorDistance from an integer pixel to a fractional centroid. -/
def centDistSq (p : Color) (c : CentF) : Frac :=
  fadd (fadd (fsq (fsub p.r c.r)) (fsq (fsub p.g c.g))) (fsq (fsub p.b c.b))

/-- Index of the centroid closest to `p` (PictureDesigner.tsx 63-77):
`minDist` starts at Infinity (modelled by `none`) and `closestCentroid` at 0;
each strictly closer centroid replaces it, so the first minimizer wins. -/
def closestCentroidIdx (cents : List CentF) (p : Color) : ℕ :=
  (cents.foldl (fun (st : ℕ × ℕ × Option Frac) c =>
     match st.2.2 with
     | none => (st.1 + 1, st.1, some (centDistSq p c))
     | some m =>
       if flt (centDistSq p c) m then (st.1 + 1, st.1, some (centDistSq p c))
       else (st.1 + 1, st.2.1, some m)) (0, 0, none)).2.1

/-- One k-means iteration (PictureDesigner.tsx 60-87): pixels are assigned to
their closest centroid; a centroid with a nonempty cluster becomes the
(exact) mean of its cluster, an empty cluster leaves it unchanged. -/
def kMeansStep (pixels : List Color) (cents : List CentF) : List CentF :=
  (List.range cents.length).map (fun i =>
    let members := pixels.filter (fun p => closestCentroidIdx cents p == i)
    if members.length = 0 then cents.getD i ⟨⟨0, 1⟩, ⟨0, 1⟩, ⟨0, 1⟩⟩
    else ⟨⟨(members.map Color.r).sum, members.length⟩,
          ⟨(members.map Color.g).sum, members.length⟩,
          ⟨(members.map Color.b).sum, members.length⟩⟩)

/-- One buffer read, returning the buffer alongside so that the extraction
loop of quantizeColors visibly threads the buffer through untouched. -/
def readPixel (b : Bitmap) (i : ℕ) : Color × Bitmap := (b.data.getD i default, b)

/-- The pixel-extraction loop of quantizeColors (PictureDesigner.tsx 38-48):
every quadruple of the buffer is read in order and those with alpha above 128
are kept. -/
def extractVisible (b : Bitmap) : List Color × Bitmap :=
  (List.range b.data.length).foldl (fun st i =>
    let pr := readPixel st.2 i
    (if 128 < pr.1.a then st.1 ++ [pr.1] else st.1, pr.2)) ([], b)

/-- quantizeColors (simple variant, PictureDesigner.tsx 35-92).  `pick i` is
the i-th value of `Math.floor (Math.random () * pixels.length)`.  If no pixel
is visible the empty palette is returned at once; otherwise `k` random
centroids are drawn, 20 k-means iterations run (the simple variant has no
early-exit test), and the centroids are rounded into hex strings — modelled
as rounded RGB with the alpha 255 that processImage parses back.  The input
buffer is threaded through and returned unchanged. -/
def quantizeColorsRun (bmp : Bitmap) (k : ℕ) (pick : ℕ → ℕ) :
    List Color × Bitmap :=
  let ex := extractVisible bmp
  let pixels := ex.1
  if pixels.length = 0 then ([], ex.2)
  else
    let cents0 := (List.range k).map (fun i =>
      let p := pixels.getD (pick i) default
      (⟨⟨p.r, 1⟩, ⟨p.g, 1⟩, ⟨p.b, 1⟩⟩ : CentF))
    let cents := (List.range 20).foldl (fun cs _ => kMeansStep pixels cs) cents0
    (cents.map (fun c =>
       (⟨(jsRoundDiv c.r.num c.r.den).toNat, (jsRoundDiv c.g.num c.g.den).toNat,
         (jsRoundDiv c.b.num c.b.den).toNat, 255⟩ : Color)), ex.2)

/-- The palette component of quantizeColorsRun. -/
def quantizeColors (bmp : Bitmap) (k : ℕ) (pick : ℕ → ℕ) : List Color :=
  (quantizeColorsRun bmp k pick).1

/-- The distinct RGB values among the visible (alpha above 128) pixels. -/
def distinctVisibleColors (b : Bitmap) : List (ℕ × ℕ × ℕ) :=
  ((b.data.filter (fun c => 128 < c.a)).map (fun c => (c.r, c.g, c.b))).dedup

/-- One step of the nearest-palette-color loop: a color strictly closer than
the running minimum (Infinity is `none`) replaces the running best. -/
def nearStep {α : Type} [LinearOrder α] (d : Color → Color → α) (c : Color)
    (st : Color × Option α) (q : Color) : Color × Option α :=
  match st.2 with
  | none => (q, some (d c q))
  | some m => if d c q < m then (q, some (d c q)) else st

/-- Nearest-palette-color search as written in the source (PictureDesigner.tsx
714-724, 971-980): `closestColor` starts at `palette[0]` — `undefined`, hence
`none`, on an empty palette — `minDist` at Infinity (`none`), and the loop
over the whole palette applies `nearStep`. -/
def nearestCode {α : Type} [LinearOrder α] (d : Color → Color → α)
    (palette : List Color) (c : Color) : Option Color :=
  match palette with
  | [] => none
  | p0 :: _ => some ((palette.foldl (nearStep d c) (p0, none)).1)

/-- The nearest palette color in the words of the specification: the head of
the palette, unless the rest of the palette holds a strictly nearer color —
so the earliest entry wins ties. -/
def nearestSpec {α : Type} [LinearOrder α] (d : Color → Color → α) (c : Color) :
    List Color → Option Color
  | [] => none
  | q :: qs =>
    some (match nearestSpec d c qs with
          | none => q
          | some r => if d c r < d c q then r else q)

/-- The best color among `b :: qs` in the claim's reading: the nearest color
of `qs` if it is strictly nearer than `b`, otherwise `b`. -/
def nearCons {α : Type} [LinearOrder α] (d : Color → Color → α) (c : Color)
    (b : Color) (qs : List Color) : Color :=
  match nearestSpec d c qs with
  | none => b
  | some r => if d c r < d c b then r else b

/-- The direct (non-dithered) quantization loop of processImage
(PictureDesigner.tsx 960-987, and 126-163 in the simple variant): every pixel
with alpha above 128 has its RGB replaced by the nearest palette color and
keeps its alpha; other pixels are untouched.  `none` models the TypeError the
source throws when it dereferences `palette[0]` of an empty palette at a
processed pixel. -/
def quantizeData {α : Type} [LinearOrder α] (d : Color → Color → α)
    (palette : List Color) : List Color → Option (List Color)
  | [] => some []
  | c :: cs =>
    if 128 < c.a then
      match nearestCode d palette c with
      | none => none
      | some ch =>
        (quantizeData d palette cs).map (fun rest => ⟨ch.r, ch.g, ch.b, c.a⟩ :: rest)
    else (quantizeData d palette cs).map (fun rest => c :: rest)

/-- The direct pass over a bitmap. -/
def processImageDirect {α : Type} [LinearOrder α] (d : Color → Color → α)
    (palette : List Color) (bmp : Bitmap) : Option Bitmap :=
  (quantizeData d palette bmp.data).map (fun dt => ⟨bmp.width, bmp.height, dt⟩)

/-- A dithering neighbor update on one channel: the source computes
`Math.max (0, Math.min (255, cur + err * (p/16)))` and the assignment to the
`Uint8ClampedArray` rounds the result (already in [0,255]) half to even.
Exactly: the value is `(16*cur + err*p) / 16`. -/
def updChannel (cur : ℕ) (err : ℤ) (p : ℤ) : ℕ :=
  (roundHalfEvenDiv (max 0 (min (255 * 16) (16 * cur + err * p))) 16).toNat

/-- distributeError (PictureDesigner.tsx 737-748): the error fraction `p/16`
reaches the neighbor at offset (dx, dy) only if it is inside the bitmap and
its alpha is above 128. -/
def distOne (w h x y : ℕ) (dx dy : ℤ) (p : ℤ) (er eg eb : ℤ)
    (data : List Color) : List Color :=
  let nx : ℤ := (x : ℤ) + dx
  let ny : ℤ := (y : ℤ) + dy
  if 0 ≤ nx ∧ nx < (w : ℤ) ∧ 0 ≤ ny ∧ ny < (h : ℤ) then
    let nIdx := (ny * w + nx).toNat
    let c := data.getD nIdx default
    if 128 < c.a then
      data.set nIdx ⟨updChannel c.r er p, updChannel c.g eg p, updChannel c.b eb p, c.a⟩
    else data
  else data

/-- The body of the Floyd-Steinberg double loop at pixel (x, y)
(PictureDesigner.tsx 701-754): pixels with alpha below 128 are skipped; the
processed pixel is overwritten with the nearest palette color (keeping its
alpha) and the signed error `original - chosen` is distributed, in source
order, with numerators 7, 3, 5, 1 over 16 to the right, below-left, below and
below-right neighbors. -/
def pixelStepCode {α : Type} [LinearOrder α] (d : Color → Color → α)
    (palette : List Color) (w h y x : ℕ) (data : List Color) :
    Option (List Color) :=
  let idx := y * w + x
  let c := data.getD idx default
  if c.a < 128 then some data
  else
    match nearestCode d palette c with
    | none => none
    | some ch =>
      let d1 := data.set idx ⟨ch.r, ch.g, ch.b, c.a⟩
      let er : ℤ := (c.r : ℤ) - ch.r
      let eg : ℤ := (c.g : ℤ) - ch.g
      let eb : ℤ := (c.b : ℤ) - ch.b
      some (distOne w h x y 1 1 1 er eg eb
            (distOne w h x y 0 1 5 er eg eb
             (distOne w h x y (-1) 1 3 er eg eb
              (distOne w h x y 1 0 7 er eg eb d1))))

/-- floydSteinbergDither (PictureDesigner.tsx 696-756): the double loop runs
top-to-bottom, left-to-right; `none` records the TypeError thrown on an empty
palette at a processed pixel. -/
def floydSteinbergDither {α : Type} [LinearOrder α] (d : Color → Color → α)
    (palette : List Color) (bmp : Bitmap) : Option Bitmap :=
  ((List.range bmp.height).foldl (fun st y =>
    (List.range bmp.width).foldl (fun st2 x =>
      st2.bind (pixelStepCode d palette bmp.width bmp.height y x)) st)
   (some bmp.data)).map (fun dt => ⟨bmp.width, bmp.height, dt⟩)

/-- The Floyd-Steinberg neighbor offsets and error numerators of the claim:
right 7/16, below-left 3/16, below 5/16, below-right 1/16. -/
def fsOffsets : List (ℤ × ℤ × ℤ) := [(1, 0, 7), (-1, 1, 3), (0, 1, 5), (1, 1, 1)]

/-- The per-pixel dithering step in the claim's words, with the processing
threshold the code actually uses (alpha at least 128): write the nearest
palette color, then fold the error distribution over the four listed
neighbor fractions. -/
def pixelStepSpec {α : Type} [LinearOrder α] (d : Color → Color → α)
    (palette : List Color) (w h y x : ℕ) (data : List Color) :
    Option (List Color) :=
  let idx := y * w + x
  let c := data.getD idx default
  if 128 ≤ c.a then
    match nearestSpec d c palette with
    | none => none
    | some ch =>
      some (fsOffsets.foldl (fun dt off =>
        distOne w h x y off.1 off.2.1 off.2.2
          ((c.r : ℤ) - ch.r) ((c.g : ℤ) - ch.g) ((c.b : ℤ) - ch.b) dt)
        (data.set idx ⟨ch.r, ch.g, ch.b, c.a⟩))
  else some data

/-- The claim's dithering pass with the code's real processing threshold. -/
def ditherSpecGE {α : Type} [LinearOrder α] (d : Color → Color → α)
    (palette : List Color) (bmp : Bitmap) : Option Bitmap :=
  ((List.range bmp.height).foldl (fun st y =>
    (List.range bmp.width).foldl (fun st2 x =>
      st2.bind (pixelStepSpec d palette bmp.width bmp.height y x)) st)
   (some bmp.data)).map (fun dt => ⟨bmp.width, bmp.height, dt⟩)

/-- The per-pixel dithering step exactly as the claim states it: only visible
pixels — alpha above 128, the visibility threshold of the palette extractor —
are processed. -/
def pixelStepClaim {α : Type} [LinearOrder α] (d : Color → Color → α)
    (palette : List Color) (w h y x : ℕ) (data : List Color) :
    Option (List Color) :=
  let idx := y * w + x
  let c := data.getD idx default
  if 128 < c.a then
    match nearestSpec d c palette with
    | none => none
    | some ch =>
      some (fsOffsets.foldl (fun dt off =>
        distOne w h x y off.1 off.2.1 off.2.2
          ((c.r : ℤ) - ch.r) ((c.g : ℤ) - ch.g) ((c.b : ℤ) - ch.b) dt)
        (data.set idx ⟨ch.r, ch.g, ch.b, c.a⟩))
  else some data

/-- The dithering pass exactly as the claim states it. -/
def ditherClaim {α : Type} [LinearOrder α] (d : Color → Color → α)
    (palette : List Color) (bmp : Bitmap) : Option Bitmap :=
  ((List.range bmp.height).foldl (fun st y =>
    (List.range bmp.width).foldl (fun st2 x =>
      st2.bind (pixelStepClaim d palette bmp.width bmp.height y x)) st)
   (some bmp.data)).map (fun dt => ⟨bmp.width, bmp.height, dt⟩)

/-- The edit-session state of the advanced variant: the history list, the
history cursor (`historyIndexRef`, -1 before the first snapshot) and the
canvas bitmap. -/
structure EditSession where
  history : List Bitmap
  histIdx : ℤ
  canvas : Bitmap
deriving DecidableEq

/-- saveToHistory (PictureDesigner.tsx 521-528): truncate after the cursor,
push the current canvas, move the cursor to the new end. -/
def saveToHistory (s : EditSession) : EditSession :=
  let newHistory := s.history.take (s.histIdx + 1).toNat ++ [s.canvas]
  { s with history := newHistory, histIdx := (newHistory.length : ℤ) - 1 }

/-- undo (PictureDesigner.tsx 531-541): if the cursor is past 0, step it back
one position and restore that snapshot to the canvas.  The `getD` fallback is
unreachable while the cursor is a valid index into the history. -/
def undo (s : EditSession) : EditSession :=
  if 0 < s.histIdx then
    { s with histIdx := s.histIdx - 1,
             canvas := s.history.getD (s.histIdx - 1).toNat s.canvas }
  else s

/-- The session right after processImage produced the pixelated bitmap: the
effect at PictureDesigner.tsx 1253-1257 pushes the first snapshot while the
cursor is still -1, giving history `[b]` and cursor 0. -/
def sessionAfterLoad (b : Bitmap) : EditSession := ⟨[b], 0, b⟩

/-- Mouse-down of a paint gesture: paints through paintPixel, no snapshot. -/
def mouseDownPaint (s : EditSession) (x y : ℤ) (c : Color) : EditSession :=
  { s with canvas := paintPixel s.canvas x y c }

/-- Mouse-up of a paint gesture (PictureDesigner.tsx 1111-1120): the current
canvas is committed to history. -/
def mouseUpPaint (s : EditSession) : EditSession := saveToHistory s

/-- updatePaletteColor (advanced variant PictureDesigner.tsx 1155-1195, same
core as the simple variant 283-322): replace `palette[index]` and rewrite
every pixel whose RGB exactly equals the old palette color at that index to
the new RGB, leaving alpha alone. -/
def updatePaletteColor (palette : List Color) (bmp : Bitmap) (index : ℕ)
    (newColor : Color) : List Color × Bitmap :=
  let oldColor := palette.getD index default
  (palette.set index newColor,
   { bmp with data := bmp.data.map (fun c =>
       if c.r = oldColor.r ∧ c.g = oldColor.g ∧ c.b = oldColor.b then
         ⟨newColor.r, newColor.g, newColor.b, c.a⟩ else c) })

/-- A 1x1 bitmap with a single opaque red pixel. -/
def bmpRed : Bitmap := ⟨1, 1, [⟨255, 0, 0, 255⟩]⟩

/-- The random-draw stream that always returns index 0. -/
def pick0 : ℕ → ℕ := fun _ => 0

/-- A 1x1 bitmap whose only pixel has alpha exactly 128: below the palette
extractor's visibility threshold, yet processed by the dithering pass. -/
def bmp128 : Bitmap := ⟨1, 1, [⟨100, 100, 100, 128⟩]⟩

/-- Opaque black. -/
def blackC : Color := ⟨0, 0, 0, 255⟩

/-- A 2x2 bitmap with four distinguishable opaque pixels. -/
def bmp2x2 : Bitmap :=
  ⟨2, 2, [⟨1, 1, 1, 255⟩, ⟨2, 2, 2, 255⟩, ⟨3, 3, 3, 255⟩, ⟨4, 4, 4, 255⟩]⟩

/-- A 1x1 bitmap with a fully transparent but red-colored pixel. -/
def bmpT : Bitmap := ⟨1, 1, [⟨255, 0, 0, 0⟩]⟩

/-- A 1x1 bitmap with a faint (alpha 9) colored pixel. -/
def bmpOp : Bitmap := ⟨1, 1, [⟨13, 57, 200, 9⟩]⟩

/-- A 1x1 bitmap with an opaque colored pixel (its only pixel is a border
pixel for the edge enhancer). -/
def bmpE : Bitmap := ⟨1, 1, [⟨10, 20, 30, 255⟩]⟩

/-- A 2x1 bitmap with one visible red-ish pixel and one invisible gray one. -/
def bmpC6 : Bitmap := ⟨2, 1, [⟨200, 0, 0, 255⟩, ⟨7, 7, 7, 0⟩]⟩

/-- A 3x3 bitmap with distinct alphas, whose center is interior. -/
def bmp3 : Bitmap :=
  ⟨3, 3, [⟨10, 0, 0, 200⟩, ⟨20, 0, 0, 201⟩, ⟨30, 0, 0, 202⟩,
          ⟨40, 0, 0, 203⟩, ⟨50, 60, 70, 204⟩, ⟨60, 0, 0, 205⟩,
          ⟨70, 0, 0, 206⟩, ⟨80, 0, 0, 207⟩, ⟨90, 0, 0, 208⟩]⟩

/-- A session holding two snapshots with the cursor on the second. -/
def sessA : EditSession := ⟨[bmpRed, bmp128], 1, bmp128⟩

/-- A two-entry palette with distinct colors. -/
def palW : List Color := [⟨1, 2, 3, 255⟩, ⟨4, 5, 6, 255⟩]

/-- A 2x1 bitmap whose first pixel matches palW entry 0 exactly and whose
second matches no entry. -/
def bmpW : Bitmap := ⟨2, 1, [⟨1, 2, 3, 200⟩, ⟨9, 9, 9, 100⟩]⟩

lemma getD_range_map {β : Type} (n : ℕ) (f : ℕ → β) (i : ℕ) (dflt : β) :
    ((List.range n).map f).getD i dflt = if i < n then f i else dflt := by
  rw [List.getD_eq_getElem?_getD, List.getElem?_map]
  by_cases h : i < n
  · rw [List.getElem?_range h]
    simp [h]
  · rw [List.getElem?_eq_none (by simpa using Nat.le_of_not_lt h)]
    simp [h]

lemma extract_fold_snd (l : List ℕ) (acc : List Color) (buf : Bitmap) :
    (l.foldl (fun st i =>
      let pr := readPixel st.2 i
      (if 128 < pr.1.a then st.1 ++ [pr.1] else st.1, pr.2)) (acc, buf)).2 = buf := by
  induction l generalizing acc buf with
  | nil => rfl
  | cons x xs ih =>
    rw [List.foldl_cons]
    exact ih _ _

lemma extractVisible_snd (b : Bitmap) : (extractVisible b).2 = b :=
  extract_fold_snd _ _ _

lemma extract_fold_fst (b : Bitmap) (n : ℕ) (hn : n ≤ b.data.length) :
    ((List.range n).foldl (fun st i =>
      let pr := readPixel st.2 i
      (if 128 < pr.1.a then st.1 ++ [pr.1] else st.1, pr.2)) ([], b)).1 =
      (b.data.take n).filter (fun c => 128 < c.a) := by
  induction n with
  | zero => rfl
  | succ m ih =>
    have hm : m ≤ b.data.length := Nat.le_of_succ_le hn
    rw [List.range_succ, List.foldl_append]
    have hsnd := extract_fold_snd (List.range m) [] b
    have hfst := ih hm
    set st := (List.range m).foldl (fun st i =>
      let pr := readPixel st.2 i
      (if 128 < pr.1.a then st.1 ++ [pr.1] else st.1, pr.2)) ([], b) with hst
    have hm' : m < b.data.length := hn
    have hget : b.data.getD m default = b.data[m] := List.getD_eq_getElem b.data default hm'
    have hstep : (List.foldl (fun st i =>
        let pr := readPixel st.2 i
        (if 128 < pr.1.a then st.1 ++ [pr.1] else st.1, pr.2)) st [m]).1 =
        (if 128 < (b.data[m]).a then st.1 ++ [b.data[m]] else st.1) := by
      show (if 128 < (st.2.data.getD m default).a
              then st.1 ++ [st.2.data.getD m default] else st.1, st.2).1 = _
      rw [hsnd, hget]
    rw [hstep, hfst, List.take_succ, List.getElem?_eq_getElem hm', Option.toList_some,
        List.filter_append]
    by_cases hv : 128 < (b.data[m]).a
    · simp [hv]
    · simp [hv]

lemma extractVisible_fst (b : Bitmap) :
    (extractVisible b).1 = b.data.filter (fun c => 128 < c.a) := by
  have := extract_fold_fst b b.data.length (le_refl _)
  rw [List.take_length] at this
  exact this

/-- C10: palette extraction is read-only on its input bitmap: the buffer the
extraction loop threads through comes back unchanged, so the bitmap handed on
to the pixel-mapping pass is exactly the bitmap that was passed in. -/
theorem quantizeColors_readonly (bmp : Bitmap) (k : ℕ) (pick : ℕ → ℕ) :
    (quantizeColorsRun bmp k pick).2 = bmp := by
  unfold quantizeColorsRun
  by_cases h : (extractVisible bmp).1.length = 0 <;>
    simp [h, extractVisible_snd]

lemma kmeans_iter_length (pixels : List Color) (l : List ℕ) (cs : List CentF) :
    (l.foldl (fun c _ => kMeansStep pixels c) cs).length = cs.length := by
  induction l generalizing cs with
  | nil => rfl
  | cons x xs ih =>
    rw [List.foldl_cons, ih]
    simp [kMeansStep]

/-- C1 amended: with at least one visible pixel, a palette size of at least
one, and in-range random draws, the simple-variant quantizeColors returns
exactly `k` palette entries — regardless of the number of distinct visible
colors, so for `k` above the distinct-color count the palette is padded with
duplicated entries rather than truncated to the distinct count. -/
theorem quantizeColors_length (bmp : Bitmap) (k : ℕ) (pick : ℕ → ℕ)
    (hk : 1 ≤ k) (hvis : ∃ c ∈ bmp.data, 128 < c.a)
    (hpick : ∀ i, pick i < (bmp.data.filter (fun c => 128 < c.a)).length) :
    (quantizeColors bmp k pick).length = k := by
  obtain ⟨c, hc, hca⟩ := hvis
  have hmem : c ∈ (extractVisible bmp).1 := by
    rw [extractVisible_fst]
    exact List.mem_filter.mpr ⟨hc, by simpa using hca⟩
  have hne : (extractVisible bmp).1.length ≠ 0 := by
    intro h0
    rw [List.length_eq_zero] at h0
    exact absurd (h0 ▸ hmem) (List.not_mem_nil c)
  unfold quantizeColors quantizeColorsRun
  simp only [hne, if_false, kmeans_iter_length, List.length_map, List.length_range]

/-- C1 witness: the amended theorem applied to the opaque red 1x1 bitmap with
palette size 2. -/
theorem quantizeColors_length_witness :
    (1 ≤ 2 ∧ (∃ c ∈ bmpRed.data, 128 < c.a) ∧
      (∀ i : ℕ, pick0 i < (bmpRed.data.filter (fun c => 128 < c.a)).length)) ∧
    (quantizeColors bmpRed 2 pick0).length = 2 := by
  have hlen : ∀ i : ℕ, pick0 i < (bmpRed.data.filter (fun c => 128 < c.a)).length := by
    intro i
    show 0 < _
    decide
  exact ⟨⟨by decide, ⟨⟨255, 0, 0, 255⟩, by decide, by decide⟩, hlen⟩,
    quantizeColors_length bmpRed 2 pick0 (by decide)
      ⟨⟨255, 0, 0, 255⟩, by decide, by decide⟩ hlen⟩

/-- C1 counterexample: the opaque red 1x1 bitmap has one distinct visible
color, yet quantizeColors with k = 2 returns two entries (a duplicated red),
not min(k, distinct) = 1 — the returned palette neither has the claimed
length nor is duplicate-free. -/
theorem quantizeColors_min_counterexample :
    ¬ ((quantizeColors bmpRed 2 pick0).length =
         min 2 (distinctVisibleColors bmpRed).length ∧
       (quantizeColors bmpRed 2 pick0).Nodup) := by decide

/-- C3 amended: paintPixel (the advanced variant's paint operation) really is
a silent no-op on every out-of-bounds coordinate. -/
theorem paintPixel_oob (bmp : Bitmap) (x y : ℤ) (c : Color)
    (h : x < 0 ∨ (bmp.width : ℤ) ≤ x ∨ y < 0 ∨ (bmp.height : ℤ) ≤ y) :
    paintPixel bmp x y c = bmp := by
  unfold paintPixel
  rw [if_pos h]

/-- C3 witness: painting at x = -1 on the 2x2 bitmap through paintPixel
leaves it unchanged. -/
theorem paintPixel_oob_witness :
    ((-1 : ℤ) < 0 ∨ ((bmp2x2.width : ℤ) ≤ -1) ∨ (1 : ℤ) < 0 ∨
      ((bmp2x2.height : ℤ) ≤ 1)) ∧
    paintPixel bmp2x2 (-1) 1 ⟨9, 9, 9, 255⟩ = bmp2x2 :=
  ⟨Or.inl (by decide), paintPixel_oob bmp2x2 (-1) 1 ⟨9, 9, 9, 255⟩ (Or.inl (by decide))⟩

/-- C3 counterexample: the simple variant's click handler has no bounds
check, and the out-of-bounds coordinate (-1, 1) aliases to flat pixel index
1*2 - 1 = 1, mutating pixel (1, 0) of the 2x2 bitmap. -/
theorem handleCanvasClick_oob_counterexample :
    ((-1 : ℤ) < 0) ∧ handleCanvasClickAt bmp2x2 (-1) 1 ⟨9, 9, 9, 255⟩ ≠ bmp2x2 := by
  decide

/-- C2: on the bitmap whose only pixel has alpha exactly 128 the palette
extractor returns the empty palette (no pixel exceeds the 128 visibility
threshold) and the direct pass is a faultless no-op, but the dithering pass —
which skips only pixels with alpha strictly below 128 — processes the pixel,
dereferences `palette[0]` of the empty palette and faults (`none` models the
thrown TypeError). -/
theorem emptyPalette_dither_fault :
    quantizeColors bmp128 8 pick0 = [] ∧
    processImageDirect colorDistSqZ ([] : List Color) bmp128 = some bmp128 ∧
    floydSteinbergDither colorDistSqZ ([] : List Color) bmp128 = none := by decide

lemma ceilDiv_mul_self (a w : ℕ) (hw : 0 < w) : ceilDiv (a * w) w = a := by
  unfold ceilDiv
  rw [Nat.add_sub_assoc (by omega : 1 ≤ w), Nat.add_comm,
      Nat.add_mul_div_right _ _ hw, Nat.div_eq_of_lt (by omega), Nat.zero_add]

lemma jsRoundDiv_mul_cancel (r a : ℕ) (ha : 0 < a) : jsRoundDiv ((r : ℤ) * a) a = r := by
  unfold jsRoundDiv
  have h2a : (0 : ℤ) < (a : ℤ) := by exact_mod_cast ha
  rw [show 2 * ((r : ℤ) * a) + a = (a : ℤ) * (2 * r + 1) by ring,
      show (2 * (a : ℤ)) = (a : ℤ) * 2 by ring,
      Int.mul_ediv_mul_of_pos _ _ h2a,
      show (2 * (r : ℤ) + 1) = 1 + r * 2 by ring,
      Int.add_mul_ediv_right _ _ (by norm_num : (2 : ℤ) ≠ 0)]
  norm_num

lemma jsRoundDiv_one (n : ℕ) : jsRoundDiv (n : ℤ) 1 = n := by
  unfold jsRoundDiv
  rw [show (2 * (n : ℤ) + 1) = 1 + n * 2 by ring, show (2 * (1 : ℤ)) = 2 by norm_num,
      Int.add_mul_ediv_right _ _ (by norm_num : (2 : ℤ) ≠ 0)]
  norm_num

lemma downsampleCell_identity (src : List Color) (w h x y : ℕ)
    (hx : x < w) (hy : y < h) :
    downsampleCell src w h w h x y =
      (if 0 < (src.getD (y * w + x) default).a then src.getD (y * w + x) default
       else ⟨0, 0, 0, 0⟩) := by
  have hw : 0 < w := lt_of_le_of_lt (Nat.zero_le x) hx
  have hh : 0 < h := lt_of_le_of_lt (Nat.zero_le y) hy
  unfold downsampleCell
  rw [Nat.mul_div_cancel _ hw, Nat.mul_div_cancel _ hh,
      ceilDiv_mul_self _ _ hw, ceilDiv_mul_self _ _ hh]
  dsimp only
  rw [min_eq_left (by omega : x + 1 ≤ w), min_eq_left (by omega : y + 1 ≤ h),
      show x + 1 - x = 1 by omega, show y + 1 - y = 1 by omega,
      List.range'_one, List.range'_one]
  simp only [List.foldl_cons, List.foldl_nil]
  rcases hP : src.getD (y * w + x) default with ⟨pr, pg, pb, pa⟩
  by_cases hpa : 0 < pa
  · simp only [hpa, if_true, Nat.zero_add]
    push_cast
    rw [jsRoundDiv_mul_cancel pr pa hpa, jsRoundDiv_mul_cancel pg pa hpa,
        jsRoundDiv_mul_cancel pb pa hpa,
        show ((x : ℤ) + 1 - x) * ((y : ℤ) + 1 - y) = 1 by ring,
        jsRoundDiv_one pa]
    simp
  · simp only [hpa, if_false]
    norm_num

/-- C4 amended: downsampling a bitmap to its own dimensions preserves every
pixel with positive alpha in all four channels, but a fully transparent pixel
is replaced by the all-zero quadruple (its RGB is discarded), because a
rectangle with zero alpha sum keeps the zero-initialised output cell. -/
theorem downsample_identity (bmp : Bitmap)
    (hwf : bmp.data.length = bmp.width * bmp.height)
    (x y : ℕ) (hx : x < bmp.width) (hy : y < bmp.height) :
    (areaAverageDownsample bmp bmp.width bmp.height).data.getD (y * bmp.width + x) default =
      (if 0 < (bmp.data.getD (y * bmp.width + x) default).a
       then bmp.data.getD (y * bmp.width + x) default else ⟨0, 0, 0, 0⟩) := by
  have hw : 0 < bmp.width := lt_of_le_of_lt (Nat.zero_le x) hx
  have hidx : y * bmp.width + x < bmp.width * bmp.height := by
    calc y * bmp.width + x < (y + 1) * bmp.width := by
            rw [Nat.add_mul, Nat.one_mul]; omega
    _ ≤ bmp.height * bmp.width := Nat.mul_le_mul_right _ (by omega)
    _ = bmp.width * bmp.height := Nat.mul_comm _ _
  unfold areaAverageDownsample
  rw [getD_range_map, if_pos hidx]
  have hmod : (y * bmp.width + x) % bmp.width = x := by
    rw [Nat.mul_comm y, Nat.mul_add_mod, Nat.mod_eq_of_lt hx]
  have hdiv : (y * bmp.width + x) / bmp.width = y := by
    rw [Nat.mul_comm y, Nat.mul_add_div hw, Nat.div_eq_of_lt hx, Nat.add_zero]
  rw [hmod, hdiv, downsampleCell_identity bmp.data bmp.width bmp.height x y hx hy]

/-- C4 witness: the amended theorem applied to the faint 1x1 bitmap, whose
single positive-alpha pixel comes back unchanged. -/
theorem downsample_identity_witness :
    (bmpOp.data.length = bmpOp.width * bmpOp.height ∧ 0 < bmpOp.width ∧ 0 < bmpOp.height) ∧
    (areaAverageDownsample bmpOp bmpOp.width bmpOp.height).data.getD 0 default =
      (if 0 < (bmpOp.data.getD 0 default).a then bmpOp.data.getD 0 default
       else ⟨0, 0, 0, 0⟩) :=
  ⟨by decide, downsample_identity bmpOp (by decide) 0 0 (by decide) (by decide)⟩

/-- C4 counterexample: the 1x1 bitmap whose pixel is fully transparent but
red-colored is not returned unchanged by the identity-resolution downsample —
the pixel's RGB is zeroed. -/
theorem downsample_identity_counterexample :
    areaAverageDownsample bmpT bmpT.width bmpT.height ≠ bmpT := by decide

/-- C5 amended: the edge enhancer copies the alpha channel only at interior
pixels; every border pixel keeps the alpha 0 of the zero-initialised output
buffer, because the edge-backfill loop explicitly skips the alpha channel
(`i % 4 !== 3`). -/
theorem enhanceEdges_alpha (bmp : Bitmap)
    (hwf : bmp.data.length = bmp.width * bmp.height)
    (i : ℕ) (hi : i < bmp.width * bmp.height) :
    ((enhanceEdgesFilter bmp).data.getD i default).a =
      (if 1 ≤ i % bmp.width ∧ i % bmp.width + 1 < bmp.width ∧
          1 ≤ i / bmp.width ∧ i / bmp.width + 1 < bmp.height
       then (bmp.data.getD i default).a else 0) := by
  unfold enhanceEdgesFilter
  dsimp only
  rw [getD_range_map, if_pos hi]
  dsimp only
  rw [getD_range_map, if_pos hi, apply_ite Color.a]

/-- C5 witness: the amended theorem at the center pixel of the 3x3 bitmap,
an interior pixel whose alpha is copied. -/
theorem enhanceEdges_alpha_witness :
    (bmp3.data.length = bmp3.width * bmp3.height ∧ (4 : ℕ) < bmp3.width * bmp3.height) ∧
    ((enhanceEdgesFilter bmp3).data.getD 4 default).a =
      (if 1 ≤ 4 % bmp3.width ∧ 4 % bmp3.width + 1 < bmp3.width ∧
          1 ≤ 4 / bmp3.width ∧ 4 / bmp3.width + 1 < bmp3.height
       then (bmp3.data.getD 4 default).a else 0) :=
  ⟨by decide, enhanceEdges_alpha bmp3 (by decide) 4 (by decide)⟩

/-- C5 counterexample: on a 1x1 bitmap the only pixel is a border pixel, and
its opaque alpha 255 becomes 0 in the output — alpha is not copied unchanged
at border pixels. -/
theorem enhanceEdges_alpha_counterexample :
    ((enhanceEdgesFilter bmpE).data.getD 0 default).a ≠ (bmpE.data.getD 0 default).a := by
  decide

lemma nearestSpec_cons {α : Type} [LinearOrder α] (d : Color → Color → α) (c q : Color)
    (qs : List Color) : nearestSpec d c (q :: qs) = some (nearCons d c q qs) := rfl

lemma nearCons_cons {α : Type} [LinearOrder α] (d : Color → Color → α) (c b q : Color)
    (t : List Color) :
    nearCons d c b (q :: t) =
      if d c (nearCons d c q t) < d c b then nearCons d c q t else b := rfl

lemma nearCons_le {α : Type} [LinearOrder α] (d : Color → Color → α) (c b : Color)
    (qs : List Color) : d c (nearCons d c b qs) ≤ d c b := by
  unfold nearCons
  cases nearestSpec d c qs with
  | none => exact le_refl _
  | some r =>
    dsimp only
    by_cases h : d c r < d c b
    · rw [if_pos h]
      exact le_of_lt h
    · rw [if_neg h]

lemma nearestSpec_mem {α : Type} [LinearOrder α] (d : Color → Color → α) (c : Color) :
    ∀ (l : List Color) (r : Color), nearestSpec d c l = some r → r ∈ l := by
  intro l
  induction l with
  | nil => intro r h; exact absurd h (by simp [nearestSpec])
  | cons q qs ih =>
    intro r h
    rw [nearestSpec_cons] at h
    injection h with h
    subst h
    unfold nearCons
    cases hs : nearestSpec d c qs with
    | none => exact List.mem_cons_self _ _
    | some r0 =>
      dsimp only
      by_cases hlt : d c r0 < d c q
      · rw [if_pos hlt]
        exact List.mem_cons_of_mem _ (ih r0 hs)
      · rw [if_neg hlt]
        exact List.mem_cons_self _ _

lemma nearFold {α : Type} [LinearOrder α] (d : Color → Color → α) (c : Color) :
    ∀ (qs : List Color) (b : Color),
      (qs.foldl (nearStep d c) (b, some (d c b))).1 = nearCons d c b qs := by
  intro qs
  induction qs with
  | nil => intro b; rfl
  | cons q t ih =>
    intro b
    rw [List.foldl_cons]
    have hstep : nearStep d c (b, some (d c b)) q =
        if d c q < d c b then (q, some (d c q)) else (b, some (d c b)) := rfl
    rw [hstep]
    by_cases h1 : d c q < d c b
    · rw [if_pos h1, ih q, nearCons_cons]
      rw [if_pos (lt_of_le_of_lt (nearCons_le d c q t) h1)]
    · rw [if_neg h1, ih b, nearCons_cons]
      cases t with
      | nil =>
        show b = if d c q < d c b then q else b
        rw [if_neg h1]
      | cons u v =>
        rw [nearCons_cons d c q u v, nearCons_cons d c b u v]
        by_cases h2 : d c (nearCons d c u v) < d c q
        · rw [if_pos h2]
        · rw [if_neg h2, if_neg h1,
              if_neg (not_lt.mpr (le_trans (not_lt.mp h1) (not_lt.mp h2)))]

/-- The source's nearest-color loop computes exactly the claim's nearest
palette color (first minimizer wins ties), including the `undefined` case on
an empty palette. -/
theorem nearestCode_eq {α : Type} [LinearOrder α] (d : Color → Color → α)
    (palette : List Color) (c : Color) :
    nearestCode d palette c = nearestSpec d c palette := by
  cases palette with
  | nil => rfl
  | cons p0 rest =>
    show some ((List.foldl (nearStep d c) (p0, none) (p0 :: rest)).1) = _
    rw [List.foldl_cons]
    have h0 : nearStep d c (p0, none) p0 = (p0, some (d c p0)) := rfl
    rw [h0, nearFold d c rest p0, nearestSpec_cons]

lemma nearestCode_mem {α : Type} [LinearOrder α] (d : Color → Color → α) (c : Color)
    (palette : List Color) (hpal : palette ≠ []) :
    ∃ ch, nearestCode d palette c = some ch ∧ ch ∈ palette := by
  cases palette with
  | nil => exact absurd rfl hpal
  | cons p0 rest =>
    rw [nearestCode_eq, nearestSpec_cons]
    exact ⟨nearCons d c p0 rest, rfl,
      nearestSpec_mem d c (p0 :: rest) _ (nearestSpec_cons d c p0 rest)⟩

lemma quantizeData_exists {α : Type} [LinearOrder α] (d : Color → Color → α)
    (palette : List Color) (hpal : palette ≠ []) :
    ∀ l : List Color, ∃ out, quantizeData d palette l = some out ∧
      out.length = l.length ∧
      ∀ i, i < l.length →
        (out.getD i default).a = (l.getD i default).a ∧
        ((l.getD i default).a ≤ 128 → out.getD i default = l.getD i default) ∧
        (128 < (l.getD i default).a →
          ∃ p ∈ palette, (out.getD i default).r = p.r ∧
            (out.getD i default).g = p.g ∧ (out.getD i default).b = p.b) := by
  intro l
  induction l with
  | nil =>
    exact ⟨[], rfl, rfl, fun i hi => absurd hi (by simp)⟩
  | cons c cs ih =>
    obtain ⟨out, hout, hlen, hprop⟩ := ih
    by_cases hv : 128 < c.a
    · obtain ⟨ch, hch, hchmem⟩ := nearestCode_mem d c palette hpal
      refine ⟨⟨ch.r, ch.g, ch.b, c.a⟩ :: out, ?_, by simpa using hlen, ?_⟩
      · show quantizeData d palette (c :: cs) = _
        unfold quantizeData
        rw [if_pos hv, hch, hout]
        rfl
      · intro i hi
        cases i with
        | zero =>
          exact ⟨rfl, fun hle => absurd hv
            (by simp only [List.getD_cons_zero] at hle; omega),
            fun _ => ⟨ch, hchmem, rfl, rfl, rfl⟩⟩
        | succ j =>
          rw [List.getD_cons_succ, List.getD_cons_succ]
          exact hprop j (by simpa using hi)
    · refine ⟨c :: out, ?_, by simpa using hlen, ?_⟩
      · show quantizeData d palette (c :: cs) = _
        unfold quantizeData
        rw [if_neg hv, hout]
        rfl
      · intro i hi
        cases i with
        | zero => exact ⟨rfl, fun _ => rfl, fun h => absurd h hv⟩
        | succ j =>
          rw [List.getD_cons_succ, List.getD_cons_succ]
          exact hprop j (by simpa using hi)

/-- C6 amended: for every distance metric, the direct quantization pass with
a non-empty palette never faults, keeps the dimensions and length, preserves
every pixel's alpha, writes a palette RGB into every visible (alpha above
128) pixel, and leaves every non-visible pixel entirely unchanged — so a
non-visible pixel's RGB need not be a palette entry. -/
theorem processImageDirect_spec {α : Type} [LinearOrder α] (d : Color → Color → α)
    (palette : List Color) (bmp : Bitmap) (hpal : palette ≠ []) :
    ∃ out, processImageDirect d palette bmp = some out ∧
      out.width = bmp.width ∧ out.height = bmp.height ∧
      out.data.length = bmp.data.length ∧
      ∀ i, i < bmp.data.length →
        (out.data.getD i default).a = (bmp.data.getD i default).a ∧
        ((bmp.data.getD i default).a ≤ 128 →
          out.data.getD i default = bmp.data.getD i default) ∧
        (128 < (bmp.data.getD i default).a →
          ∃ p ∈ palette, (out.data.getD i default).r = p.r ∧
            (out.data.getD i default).g = p.g ∧ (out.data.getD i default).b = p.b) := by
  obtain ⟨dt, hdt, hlen, hprop⟩ := quantizeData_exists d palette hpal bmp.data
  exact ⟨⟨bmp.width, bmp.height, dt⟩, by simp [processImageDirect, hdt], rfl, rfl, hlen, hprop⟩

/-- C6 witness: the amended theorem instantiated with the RGB metric, the
one-color black palette and the 2x1 bitmap with one visible pixel. -/
theorem processImageDirect_spec_witness :
    (([blackC] : List Color) ≠ []) ∧
    (∃ out, processImageDirect colorDistSqZ [blackC] bmpC6 = some out ∧
      out.width = bmpC6.width ∧ out.height = bmpC6.height ∧
      out.data.length = bmpC6.data.length ∧
      ∀ i, i < bmpC6.data.length →
        (out.data.getD i default).a = (bmpC6.data.getD i default).a ∧
        ((bmpC6.data.getD i default).a ≤ 128 →
          out.data.getD i default = bmpC6.data.getD i default) ∧
        (128 < (bmpC6.data.getD i default).a →
          ∃ p ∈ ([blackC] : List Color), (out.data.getD i default).r = p.r ∧
            (out.data.getD i default).g = p.g ∧ (out.data.getD i default).b = p.b)) :=
  ⟨by decide, processImageDirect_spec colorDistSqZ [blackC] bmpC6 (by decide)⟩

/-- C6 counterexample: the pipeline palette of the 2x1 bitmap is the single
color (200,0,0); the direct pass leaves the bitmap unchanged, and its second
pixel — invisible, RGB (7,7,7) — matches no palette entry, so "every output
pixel's RGB equals some palette entry" fails. -/
theorem processImageDirect_counterexample :
    quantizeColors bmpC6 1 pick0 = [⟨200, 0, 0, 255⟩] ∧
    processImageDirect colorDistSqZ [⟨200, 0, 0, 255⟩] bmpC6 = some bmpC6 ∧
    ¬ ∃ p ∈ ([⟨200, 0, 0, 255⟩] : List Color),
        (bmpC6.data.getD 1 default).r = p.r ∧ (bmpC6.data.getD 1 default).g = p.g ∧
        (bmpC6.data.getD 1 default).b = p.b := by decide

lemma pixelStep_eq {α : Type} [LinearOrder α] (d : Color → Color → α)
    (palette : List Color) (w h y x : ℕ) (data : List Color) :
    pixelStepCode d palette w h y x data = pixelStepSpec d palette w h y x data := by
  unfold pixelStepCode pixelStepSpec
  dsimp only
  by_cases hc : (data.getD (y * w + x) default).a < 128
  · rw [if_pos hc, if_neg (by omega)]
  · rw [if_neg hc, if_pos (by omega)]
    rw [nearestCode_eq]
    cases nearestSpec d (data.getD (y * w + x) default) palette with
    | none => rfl
    | some ch =>
      dsimp only
      simp only [fsOffsets, List.foldl_cons, List.foldl_nil]

/-- C7 amended: for every distance metric and every palette and bitmap, the
source's Floyd-Steinberg pass equals the claim's row-major algorithm — write
the nearest palette color, propagate the signed error with fractions 7/16,
3/16, 5/16, 1/16 to the in-bounds neighbors with alpha above 128, clamping to
[0,255] — with one correction: the processed pixels are those with alpha at
least 128, not only those above the extractor's strict 128 visibility
threshold. -/
theorem floydSteinbergDither_eq_spec {α : Type} [LinearOrder α]
    (d : Color → Color → α) (palette : List Color) (bmp : Bitmap) :
    floydSteinbergDither d palette bmp = ditherSpecGE d palette bmp := by
  unfold floydSteinbergDither ditherSpecGE
  have hs : pixelStepCode (α := α) d palette bmp.width bmp.height =
      pixelStepSpec d palette bmp.width bmp.height := by
    funext y x data
    exact pixelStep_eq d palette bmp.width bmp.height y x data
  rw [hs]

/-- C7 counterexample: on the 1x1 bitmap whose pixel has alpha exactly 128,
the source pass processes the pixel and writes the palette color, while the
claim's pass — which only touches visible (alpha above 128) pixels — leaves
it unchanged, so the two disagree. -/
theorem dither_threshold_counterexample :
    floydSteinbergDither colorDistSqZ [blackC] bmp128 ≠
      ditherClaim colorDistSqZ [blackC] bmp128 := by decide

/-- C8: Undo with the cursor at 0 is a no-op; with a larger (valid) cursor it
moves the cursor back exactly one position, keeps the history, and restores
the snapshot at the new position bit-for-bit; and after load-then-one-paint
gesture, Undo restores the pre-paint bitmap. -/
theorem undo_spec :
    (∀ s : EditSession, s.histIdx = 0 → undo s = s) ∧
    (∀ s : EditSession, 0 < s.histIdx → s.histIdx ≤ (s.history.length : ℤ) →
      (undo s).histIdx = s.histIdx - 1 ∧ (undo s).history = s.history ∧
      ∃ snap, s.history[(s.histIdx - 1).toNat]? = some snap ∧ (undo s).canvas = snap) ∧
    (∀ (b : Bitmap) (x y : ℤ) (c : Color),
      (undo (mouseUpPaint (mouseDownPaint (sessionAfterLoad b) x y c))).canvas = b ∧
      (undo (mouseUpPaint (mouseDownPaint (sessionAfterLoad b) x y c))).histIdx = 0) := by
  refine ⟨?_, ?_, ?_⟩
  · intro s h
    unfold undo
    rw [if_neg (by omega)]
  · intro s h1 h2
    unfold undo
    rw [if_pos h1]
    have hb : (s.histIdx - 1).toNat < s.history.length := by omega
    exact ⟨rfl, rfl, s.history[(s.histIdx - 1).toNat],
      List.getElem?_eq_getElem hb, List.getD_eq_getElem s.history s.canvas hb⟩
  · intro b x y c
    constructor <;> rfl

/-- C8 witness: undo on a two-snapshot session with cursor 1, and undo after
one paint gesture on a freshly loaded session. -/
theorem undo_spec_witness :
    ((0 : ℤ) < sessA.histIdx ∧ sessA.histIdx ≤ (sessA.history.length : ℤ)) ∧
    (undo sessA).histIdx = sessA.histIdx - 1 ∧ (undo sessA).history = sessA.history ∧
    (∃ snap, sessA.history[(sessA.histIdx - 1).toNat]? = some snap ∧
      (undo sessA).canvas = snap) ∧
    (undo (mouseUpPaint (mouseDownPaint (sessionAfterLoad bmpRed) 0 0 blackC))).canvas =
      bmpRed :=
  ⟨⟨by decide, by decide⟩, (undo_spec.2.1 sessA (by decide) (by decide)).1,
    (undo_spec.2.1 sessA (by decide) (by decide)).2.1,
    (undo_spec.2.1 sessA (by decide) (by decide)).2.2,
    (undo_spec.2.2 bmpRed 0 0 blackC).1⟩

/-- C9: RecolorPalette at a valid index with a color whose RGB differs from
the old entry sets the palette entry to the new color, leaves zero pixels
matching the old RGB, keeps the buffer length, preserves every pixel's alpha,
and leaves every pixel whose RGB did not match the old color unchanged in all
four channels.  The claim's no-other-entry-shares-the-color hypothesis is
carried along. -/
theorem updatePaletteColor_spec (palette : List Color) (bmp : Bitmap) (index : ℕ)
    (newColor : Color) (hidx : index < palette.length)
    (hne : ¬(newColor.r = (palette.getD index default).r ∧
             newColor.g = (palette.getD index default).g ∧
             newColor.b = (palette.getD index default).b))
    (huniq : ∀ j, j < palette.length → j ≠ index →
      ¬((palette.getD j default).r = (palette.getD index default).r ∧
        (palette.getD j default).g = (palette.getD index default).g ∧
        (palette.getD j default).b = (palette.getD index default).b)) :
    (updatePaletteColor palette bmp index newColor).1.getD index default = newColor ∧
    (∀ c ∈ (updatePaletteColor palette bmp index newColor).2.data,
       ¬(c.r = (palette.getD index default).r ∧
         c.g = (palette.getD index default).g ∧
         c.b = (palette.getD index default).b)) ∧
    (updatePaletteColor palette bmp index newColor).2.data.length = bmp.data.length ∧
    (∀ i, i < bmp.data.length →
      ((updatePaletteColor palette bmp index newColor).2.data.getD i default).a =
        (bmp.data.getD i default).a ∧
      (¬((bmp.data.getD i default).r = (palette.getD index default).r ∧
         (bmp.data.getD i default).g = (palette.getD index default).g ∧
         (bmp.data.getD i default).b = (palette.getD index default).b) →
        (updatePaletteColor palette bmp index newColor).2.data.getD i default =
          bmp.data.getD i default)) := by
  refine ⟨?_, ?_, ?_, ?_⟩
  · show (palette.set index newColor).getD index default = newColor
    rw [List.getD_eq_getElem _ _ (by simpa using hidx), List.getElem_set_self]
  · intro c hc
    unfold updatePaletteColor at hc
    dsimp only at hc
    rw [List.mem_map] at hc
    obtain ⟨c0, hc0, rfl⟩ := hc
    by_cases hm : c0.r = (palette.getD index default).r ∧
        c0.g = (palette.getD index default).g ∧ c0.b = (palette.getD index default).b
    · rw [if_pos hm]
      exact hne
    · rw [if_neg hm]
      exact hm
  · show (bmp.data.map _).length = _
    exact List.length_map _ _
  · intro i hi
    unfold updatePaletteColor
    dsimp only
    rw [List.getD_eq_getElem _ _ (by simpa using hi), List.getElem_map,
        ← List.getD_eq_getElem bmp.data default hi]
    constructor
    · by_cases hm : (bmp.data.getD i default).r = (palette.getD index default).r ∧
          (bmp.data.getD i default).g = (palette.getD index default).g ∧
          (bmp.data.getD i default).b = (palette.getD index default).b
      · rw [if_pos hm]
      · rw [if_neg hm]
    · intro hnm
      rw [if_neg hnm]

/-- C9 witness: recoloring entry 0 of the two-entry palette on the 2x1 bitmap
whose first pixel matches that entry. -/
theorem updatePaletteColor_spec_witness :
    (0 < palW.length ∧
     ¬((7 : ℕ) = (palW.getD 0 default).r ∧ (8 : ℕ) = (palW.getD 0 default).g ∧
       (9 : ℕ) = (palW.getD 0 default).b) ∧
     (∀ j, j < palW.length → j ≠ 0 →
       ¬((palW.getD j default).r = (palW.getD 0 default).r ∧
         (palW.getD j default).g = (palW.getD 0 default).g ∧
         (palW.getD j default).b = (palW.getD 0 default).b))) ∧
    ((updatePaletteColor palW bmpW 0 ⟨7, 8, 9, 255⟩).1.getD 0 default = ⟨7, 8, 9, 255⟩ ∧
     (∀ c ∈ (updatePaletteColor palW bmpW 0 ⟨7, 8, 9, 255⟩).2.data,
        ¬(c.r = (palW.getD 0 default).r ∧ c.g = (palW.getD 0 default).g ∧
          c.b = (palW.getD 0 default).b)) ∧
     (updatePaletteColor palW bmpW 0 ⟨7, 8, 9, 255⟩).2.data.length = bmpW.data.length ∧
     (∀ i, i < bmpW.data.length →
       ((updatePaletteColor palW bmpW 0 ⟨7, 8, 9, 255⟩).2.data.getD i default).a =
         (bmpW.data.getD i default).a ∧
       (¬((bmpW.data.getD i default).r = (palW.getD 0 default).r ∧
          (bmpW.data.getD i default).g = (palW.getD 0 default).g ∧
          (bmpW.data.getD i default).b = (palW.getD 0 default).b) →
         (updatePaletteColor palW bmpW 0 ⟨7, 8, 9, 255⟩).2.data.getD i default =
           bmpW.data.getD i default))) :=
  ⟨⟨by decide, by decide, by decide⟩,
   updatePaletteColor_spec palW bmpW 0 ⟨7, 8, 9, 255⟩ (by decide) (by decide) (by decide)⟩
